import Mathlib

/-!
# GstRearrange: the channel-rearrangement element

A shallow embedding of `src/gstrearrange.c` and the laws of its per-buffer
transform.

Modelling conventions.

* A sample byte (`gint8`) is an integer; the transform only copies bytes and
  writes the constant zero, so no arithmetic on sample values is involved.
* The size of a buffer is a `guint`: the product that sizes the target buffer
  is taken modulo 2^32. The instance fields `outChannels` and `outPos` are
  unsigned as well (the properties are installed with `g_param_spec_uint` and
  moved with `g_value_get_uint`), so an `int` that meets them in an expression
  is converted to unsigned first.
* Widths, frame offsets and cursors inside the loop are natural numbers.
  Pointers into a buffer are byte offsets from the start of its data; the
  null pointer is `none`.
* Undefined behaviour of the C program (integer division or modulo by zero,
  a read outside the input data, a dereference of the null pointer) is an
  explicit `Fault`.
* The GStreamer library calls used by the element (structure copy, field
  lookup and update, channel-position tagging, pad push) are modelled by
  their documented behaviour.
-/

namespace GstRearrange

/-! ## Data model -/

/-- One sample byte, a `gint8` of the source. -/
abbrev Byte := Int

/-- Channel roles of `GstAudioChannelPosition` used by the element. -/
inductive GstAudioChannelPosition where
  | FRONT_LEFT
  | FRONT_RIGHT
  | REAR_LEFT
  | REAR_RIGHT
  | FRONT_CENTER
  | LFE
  | SIDE_LEFT
  | SIDE_RIGHT
  deriving DecidableEq, Repr

/-- Value of a structure field: an integer (`G_TYPE_INT`), a channel-position
array, or any other value kept as text. -/
inductive GValue where
  | int (v : Int)
  | positions (ps : List GstAudioChannelPosition)
  | other (s : String)
  deriving DecidableEq, Repr

/-- A `GstStructure`: a media-type name (the encoding, such as
`audio/x-raw-int`) and named fields. -/
structure GstStructure where
  name : String
  fields : List (String × GValue)
  deriving DecidableEq, Repr

/-- A `GstCaps`: a list of structures. -/
abbrev GstCaps := List GstStructure

/-- A `GstBuffer`: its data bytes (`size` is their number) and its caps. -/
structure GstBuffer where
  data : List Byte
  caps : GstCaps
  deriving DecidableEq, Repr

/-- Return codes of `GstFlowReturn`. -/
inductive GstFlowReturn where
  | GST_FLOW_OK
  | GST_FLOW_NOT_LINKED
  | GST_FLOW_WRONG_STATE
  | GST_FLOW_UNEXPECTED
  | GST_FLOW_NOT_NEGOTIATED
  | GST_FLOW_ERROR
  | GST_FLOW_NOT_SUPPORTED
  deriving DecidableEq, Repr

/-- The instance fields of `GstReArrange` read by the chain function. -/
structure GstReArrange where
  outChannels : Nat
  outPos : Nat
  deriving DecidableEq, Repr

/-- Undefined behaviour of the C program, made explicit: an integer division
or modulo by zero, a read outside the input data, a dereference of the null
pointer. -/
inductive Fault where
  | divByZero
  | readOutOfBounds
  | nullDeref
  deriving DecidableEq, Repr

/-! ## Library calls -/

/-- Field lookup in a structure: the first field of that name. -/
def gst_structure_get (struc : GstStructure) (field : String) : Option GValue :=
  (struc.fields.find? (fun kv => kv.1 == field)).map Prod.snd

/-- The library call `gst_structure_get_int`: the value of an integer field,
`none` (the C function returns FALSE and leaves the out-parameter alone) when
the structure is null or the field is absent or not an integer. -/
def gst_structure_get_int (struc : Option GstStructure) (field : String) : Option Int :=
  match struc with
  | none => none
  | some s =>
    match gst_structure_get s field with
    | some (GValue.int v) => some v
    | _ => none

/-- Field update on a field list: replace the first field of that name, or
append the field when there is none. -/
def setField (field : String) (v : GValue) : List (String × GValue) → List (String × GValue)
  | [] => [(field, v)]
  | kv :: rest => if kv.1 == field then (field, v) :: rest else kv :: setField field v rest

/-- The library calls `gst_structure_set` and `gst_structure_set_value` for one
field. -/
def gst_structure_set (struc : GstStructure) (field : String) (v : GValue) : GstStructure :=
  { struc with fields := setField field v struc.fields }

/-- The library call `gst_caps_get_structure (caps, 0)`: the first structure,
null when there is none. -/
def gst_caps_get_structure0 (caps : GstCaps) : Option GstStructure :=
  caps.head?

/-- Modelled from the spec: `gst_audio_set_channel_positions` belongs to the
GStreamer audio library and is not part of the source file. It reads the
`channels` field of the structure and stores, as field `channel-positions`,
the given role order truncated to that many entries; without a positive
`channels` field it leaves the structure unchanged. The validity check that
the library runs on the role list is not modelled; every truncation of the
table of the element consists of distinct defined roles. -/
def gst_audio_set_channel_positions (struc : GstStructure)
    (pos : List GstAudioChannelPosition) : GstStructure :=
  match gst_structure_get_int (some struc) "channels" with
  | none => struc
  | some channels =>
    if 0 < channels then
      gst_structure_set struc "channel-positions" (GValue.positions (pos.take channels.toNat))
    else struc

/-! ## The element -/

/-- The table `_gst_rearrange_positions`. -/
def _gst_rearrange_positions : List GstAudioChannelPosition :=
  [ GstAudioChannelPosition.FRONT_LEFT,
    GstAudioChannelPosition.FRONT_RIGHT,
    GstAudioChannelPosition.REAR_LEFT,
    GstAudioChannelPosition.REAR_RIGHT,
    GstAudioChannelPosition.FRONT_CENTER,
    GstAudioChannelPosition.LFE,
    GstAudioChannelPosition.SIDE_LEFT,
    GstAudioChannelPosition.SIDE_RIGHT ]

/-- Function `gst_rearrange_set_buffer_caps`: copy the first structure of the input
caps, set its `channels` field, tag the channel positions, and return caps
holding that one structure. Without a first structure the library calls
refuse the null structure and the returned caps are empty. -/
def gst_rearrange_set_buffer_caps (sinkCaps : GstCaps) (channels : Int) : GstCaps :=
  match gst_caps_get_structure0 sinkCaps with
  | none => []
  | some struc0 =>
    let struc := gst_structure_set struc0 "channels" (GValue.int channels)
    let struc := gst_audio_set_channel_positions struc _gst_rearrange_positions
    [struc]

/-- Function `gst_rearrange_get_caps_int`: `rc` starts at 0 and is overwritten only
when the lookup succeeds; a failed lookup prints a message and returns the
initial 0. -/
def gst_rearrange_get_caps_int (sinkCaps : GstCaps) (field : String) : Int :=
  match gst_structure_get_int (gst_caps_get_structure0 sinkCaps) field with
  | some rc => rc
  | none => 0

/-- Local variables of the loop of `gst_rearrange_chain`. `pSrc` and `pTmp`
are offsets into the input data, `pTgt` is the list of bytes written so far
(its length is the offset of the write cursor), and `reads` records, in order,
the offsets at which `*pSrc` was evaluated. -/
structure LoopState where
  pSrc : Option Nat
  pTgt : List Byte
  curByte : Nat
  pTmp : Option Nat
  reads : List Nat
  deriving DecidableEq, Repr

/-- One iteration of the `while` loop of `gst_rearrange_chain`. -/
def chain_step (src : List Byte) (inChannels width outChannels fromByte toByte : Nat)
    (st : LoopState) : Except Fault LoopState :=
  let written : Except Fault LoopState :=
    if fromByte ≤ st.curByte ∧ st.curByte < toByte then
      let pTmp := if inChannels = 1 ∧ st.curByte = fromByte then st.pSrc else st.pTmp
      let pSrc := if inChannels = 1 ∧ st.curByte = fromByte + width then pTmp else st.pSrc
      match pSrc with
      | none => Except.error Fault.nullDeref
      | some off =>
        match src[off]? with
        | none => Except.error Fault.readOutOfBounds
        | some b =>
          Except.ok { pSrc := some (off + 1), pTgt := st.pTgt ++ [b], curByte := st.curByte,
                      pTmp := pTmp, reads := st.reads ++ [off] }
    else
      Except.ok { st with pTgt := st.pTgt ++ [0] }
  match written with
  | Except.error e => Except.error e
  | Except.ok st1 =>
    if outChannels * width = 0 then Except.error Fault.divByZero
    else Except.ok { st1 with curByte := (st1.curByte + 1) % (outChannels * width) }

/-- The `while` loop of `gst_rearrange_chain`. The first argument is the number
of bytes of the target buffer not yet written, `tgtBuf->size` minus the offset
of `pTgt`: the guard `pTgt < tgtBuf->data + tgtBuf->size` holds exactly while
it is positive, and every iteration advances `pTgt` by one. -/
def chain_loop (src : List Byte) (inChannels width outChannels fromByte toByte : Nat) :
    Nat → LoopState → Except Fault LoopState
  | 0, st => Except.ok st
  | n + 1, st =>
    match chain_step src inChannels width outChannels fromByte toByte st with
    | Except.error e => Except.error e
    | Except.ok st1 => chain_loop src inChannels width outChannels fromByte toByte n st1

/-- Conversion of an `int` to `unsigned int`, which C applies to an `int`
operand that meets a `guint` operand: a value below zero is raised by 2^32. -/
def guint (x : Int) : Nat :=
  if x < 0 then (x + 4294967296).toNat else x.toNat

/-- Size of the target buffer allocated by `gst_rearrange_chain`:
`buf->size * (filter->outChannels / inChannels)`, a product of `guint` values
handed to `gst_buffer_new_and_alloc` as a `guint`, hence taken modulo 2^32.
The divisor is the channel count after its conversion to unsigned. -/
def tgtBufSize (size outChannels inChannels : Nat) : Except Fault Nat :=
  if inChannels = 0 then Except.error Fault.divByZero
  else Except.ok ((size * (outChannels / inChannels)) % 4294967296)

/-- The remapping part of `gst_rearrange_chain`, for the `int` locals `inChannels`
and `width`: allocation of the target buffer, initialisation of the cursors
and the loop, for input data `src`. `fromByte` and `toByte` are `int`; the loop
compares them with `curByte`, which is never below zero, so a bound below zero
compares as 0 does. Where `inChannels` and `width` meet the unsigned instance
fields (the division that sizes the buffer, the modulus of the frame) they are
converted to unsigned. -/
def chain_body (src : List Byte) (inChannels width : Int) (outChannels outPos : Nat) :
    Except Fault LoopState :=
  match tgtBufSize src.length outChannels (guint inChannels) with
  | Except.error e => Except.error e
  | Except.ok size =>
    let fromByte : Int := 2 * outPos * width
    let toByte : Int := fromByte + width * 2
    chain_loop src (guint inChannels) (guint width) outChannels fromByte.toNat toByte.toNat size
      { pSrc := some 0, pTgt := [], curByte := 0, pTmp := none, reads := [] }

/-- The remapping part of `gst_rearrange_chain` for a channel count and a width
in bytes that are natural numbers. -/
def chain_remap (src : List Byte) (inChannels width outChannels outPos : Nat) :
    Except Fault LoopState :=
  chain_body src inChannels width outChannels outPos

/-- What a completed call of `gst_rearrange_chain` did: the buffer handed to
`gst_pad_push` and the value returned to the caller. -/
structure ChainOutcome where
  pushed : GstBuffer
  ret : GstFlowReturn
  deriving DecidableEq, Repr

/-- Function `gst_rearrange_chain`. The downstream peer is the function `push`, the
result of `gst_pad_push` on the produced buffer. -/
def gst_rearrange_chain (push : GstBuffer → GstFlowReturn) (filter : GstReArrange)
    (buf : GstBuffer) : Except Fault ChainOutcome :=
  let width := Int.tdiv (gst_rearrange_get_caps_int buf.caps "width") 8
  let inChannels := gst_rearrange_get_caps_int buf.caps "channels"
  match chain_body buf.data inChannels width filter.outChannels filter.outPos with
  | Except.error e => Except.error e
  | Except.ok st =>
    let tgtCaps := gst_rearrange_set_buffer_caps buf.caps filter.outChannels
    let tgtBuf : GstBuffer := { data := st.pTgt, caps := tgtCaps }
    Except.ok { pushed := tgtBuf, ret := push tgtBuf }

/-! ## Example formats -/

/-- Caps of 16 bit integer audio with the given channel count, as negotiated
from the pad templates. -/
def capsInt16 (channels : Int) : GstCaps :=
  [ { name := "audio/x-raw-int",
      fields := [("width", GValue.int 16), ("depth", GValue.int 16),
                 ("endianness", GValue.int 1234), ("channels", GValue.int channels),
                 ("rate", GValue.int 44100)] } ]

/-- Caps of 16 bit integer audio without a `channels` attribute. -/
def capsNoChannels : GstCaps :=
  [ { name := "audio/x-raw-int",
      fields := [("width", GValue.int 16), ("depth", GValue.int 16),
                 ("endianness", GValue.int 1234), ("rate", GValue.int 44100)] } ]

/-- Caps of stereo integer audio without a `width` attribute. -/
def capsNoWidth : GstCaps :=
  [ { name := "audio/x-raw-int",
      fields := [("depth", GValue.int 16), ("endianness", GValue.int 1234),
                 ("channels", GValue.int 2), ("rate", GValue.int 44100)] } ]

/-- Input data of `n` bytes, all zero. -/
def silence (n : Nat) : List Byte :=
  List.replicate n 0

/-- A downstream peer that accepts every buffer. -/
def pushOk : GstBuffer → GstFlowReturn :=
  fun _ => GstFlowReturn.GST_FLOW_OK

/-! ## Closed forms used to state the result of the loop -/

/-- Bytes of one output frame whose active window holds `window`: zeros up to
the window, the window, zeros up to the end of the frame. -/
def frameBytes (width outChannels outPos : Nat) (window : List Byte) : List Byte :=
  List.replicate (2 * outPos * width) 0 ++ window ++
    List.replicate (outChannels * width - (2 * outPos * width + width * 2)) 0

/-- Content of the active window of the frame whose input starts at offset
`s`: the stereo pair, or the mono sample twice. -/
def windowBytes (src : List Byte) (inChannels width s : Nat) : List Byte :=
  if inChannels = 1 then (src.drop s).take width ++ (src.drop s).take width
  else (src.drop s).take (width * 2)

/-- Offsets read while filling the window of the frame whose input starts at
offset `s`. -/
def windowReads (inChannels width s : Nat) : List Nat :=
  if inChannels = 1 then List.range' s width ++ List.range' s width
  else List.range' s (width * 2)

/-- Output of `n` consecutive frames, the first of which reads from offset `s`. -/
def framesOut (src : List Byte) (inChannels width outChannels outPos : Nat) :
    Nat → Nat → List Byte
  | _, 0 => []
  | s, n + 1 =>
    frameBytes width outChannels outPos (windowBytes src inChannels width s) ++
      framesOut src inChannels width outChannels outPos (s + inChannels * width) n

/-- Offsets read during `n` consecutive frames, the first of which reads from
offset `s`. -/
def framesReads (inChannels width : Nat) : Nat → Nat → List Nat
  | _, 0 => []
  | s, n + 1 => windowReads inChannels width s ++ framesReads inChannels width (s + inChannels * width) n

/-! ## The loop, step by step -/

theorem guint_natCast (n : Nat) : guint (n : Int) = n := by
  have h : ¬ ((n : Int) < 0) := by omega
  simp [guint, h]

/-- On natural parameters the remapping is the allocation followed by the loop
over the window from `2 * outPos * width` to `2 * outPos * width + width * 2`. -/
theorem chain_remap_eq (src : List Byte) (ic w oc pos : Nat) :
    chain_remap src ic w oc pos =
      match tgtBufSize src.length oc ic with
      | Except.error e => Except.error e
      | Except.ok size =>
        chain_loop src ic w oc (2 * pos * w) (2 * pos * w + w * 2) size
          { pSrc := some 0, pTgt := [], curByte := 0, pTmp := none, reads := [] } := by
  have h1 : ((2 : Int) * (pos : Int) * (w : Int)).toNat = 2 * pos * w := by
    have : (2 : Int) * (pos : Int) * (w : Int) = ((2 * pos * w : Nat) : Int) := by push_cast; ring
    rw [this, Int.toNat_ofNat]
  have h2 : ((2 : Int) * (pos : Int) * (w : Int) + (w : Int) * 2).toNat = 2 * pos * w + w * 2 := by
    have : (2 : Int) * (pos : Int) * (w : Int) + (w : Int) * 2
        = ((2 * pos * w + w * 2 : Nat) : Int) := by push_cast; ring
    rw [this, Int.toNat_ofNat]
  simp only [chain_remap, chain_body, guint_natCast, h1, h2]

theorem chain_loop_add (src : List Byte) (ic w oc fb tb a b : Nat) (st : LoopState) :
    chain_loop src ic w oc fb tb (a + b) st =
      match chain_loop src ic w oc fb tb a st with
      | Except.error e => Except.error e
      | Except.ok st1 => chain_loop src ic w oc fb tb b st1 := by
  induction a generalizing st with
  | zero => simp [chain_loop]
  | succ a ih =>
    rw [Nat.succ_add]
    simp only [chain_loop]
    cases h : chain_step src ic w oc fb tb st with
    | error e => simp
    | ok st1 => simpa using ih st1

theorem step_zero (src : List Byte) (ic w oc fb tb : Nat) (st : LoopState)
    (hF : 0 < oc * w) (hout : ¬ (fb ≤ st.curByte ∧ st.curByte < tb)) :
    chain_step src ic w oc fb tb st =
      Except.ok { st with pTgt := st.pTgt ++ [0], curByte := (st.curByte + 1) % (oc * w) } := by
  have hF0 : oc * w ≠ 0 := by omega
  simp [chain_step, hout, hF0]

theorem step_copy (src : List Byte) (ic w oc fb tb s : Nat) (b : Byte) (st : LoopState)
    (hF : 0 < oc * w) (hin : fb ≤ st.curByte ∧ st.curByte < tb)
    (hplain : ic = 1 → st.curByte ≠ fb ∧ st.curByte ≠ fb + w)
    (hs : st.pSrc = some s) (hb : src[s]? = some b) :
    chain_step src ic w oc fb tb st =
      Except.ok { pSrc := some (s + 1), pTgt := st.pTgt ++ [b],
                  curByte := (st.curByte + 1) % (oc * w), pTmp := st.pTmp,
                  reads := st.reads ++ [s] } := by
  have hF0 : oc * w ≠ 0 := by omega
  have h1 : ¬ (ic = 1 ∧ st.curByte = fb) := fun h => (hplain h.1).1 h.2
  have h2 : ¬ (ic = 1 ∧ st.curByte = fb + w) := fun h => (hplain h.1).2 h.2
  simp [chain_step, hin, h1, h2, hs, hb, hF0]

theorem step_mark (src : List Byte) (w oc fb s : Nat) (b : Byte) (st : LoopState)
    (hF : 0 < oc * w) (hw : 0 < w) (hc : st.curByte = fb)
    (hs : st.pSrc = some s) (hb : src[s]? = some b) :
    chain_step src 1 w oc fb (fb + w * 2) st =
      Except.ok { pSrc := some (s + 1), pTgt := st.pTgt ++ [b],
                  curByte := (fb + 1) % (oc * w), pTmp := some s,
                  reads := st.reads ++ [s] } := by
  have hF0 : oc * w ≠ 0 := by omega
  have hw0 : w ≠ 0 := by omega
  simp [chain_step, hc, hs, hb, hF0, hw, hw0]

theorem step_rewind (src : List Byte) (w oc fb t : Nat) (b : Byte) (st : LoopState)
    (hF : 0 < oc * w) (hw : 0 < w) (hc : st.curByte = fb + w)
    (ht : st.pTmp = some t) (hb : src[t]? = some b) :
    chain_step src 1 w oc fb (fb + w * 2) st =
      Except.ok { pSrc := some (t + 1), pTgt := st.pTgt ++ [b],
                  curByte := (fb + w + 1) % (oc * w), pTmp := some t,
                  reads := st.reads ++ [t] } := by
  have hF0 : oc * w ≠ 0 := by omega
  have hw0 : w ≠ 0 := by omega
  simp [chain_step, hc, ht, hb, hF0, hw, hw0]

theorem take_drop_succ (src : List Byte) (s n : Nat) (b : Byte) (hb : src[s]? = some b) :
    (src.drop s).take (n + 1) = b :: (src.drop (s + 1)).take n := by
  have hlt : s < src.length := by
    rcases List.getElem?_eq_some_iff.mp hb with ⟨h, _⟩
    exact h
  have hget : src[s] = b := by
    rcases List.getElem?_eq_some_iff.mp hb with ⟨_, h⟩
    exact h
  rw [List.drop_eq_getElem_cons hlt, List.take_succ_cons, hget]

theorem run_zero (src : List Byte) (ic w oc fb tb : Nat) (hF : 0 < oc * w) :
    ∀ (n c : Nat) (st : LoopState), st.curByte = c % (oc * w) → c + n ≤ oc * w →
      (c + n ≤ fb ∨ tb ≤ c) →
      chain_loop src ic w oc fb tb n st =
        Except.ok { st with pTgt := st.pTgt ++ List.replicate n 0,
                            curByte := (c + n) % (oc * w) } := by
  intro n
  induction n with
  | zero =>
    intro c st hc _ _
    simp [chain_loop, ← hc]
  | succ n ih =>
    intro c st hc hle hout
    have hclt : c < oc * w := by omega
    have hc1 : st.curByte = c := by rw [hc, Nat.mod_eq_of_lt hclt]
    have hnot : ¬ (fb ≤ st.curByte ∧ st.curByte < tb) := by omega
    simp only [chain_loop]
    rw [step_zero src ic w oc fb tb st hF hnot]
    simp only
    rw [ih (c + 1) _ (by simp [hc1]) (by omega) (by omega)]
    simp [List.replicate_succ, Nat.add_assoc, Nat.add_comm 1 n]

theorem run_copy (src : List Byte) (ic w oc fb tb : Nat) (hF : 0 < oc * w) :
    ∀ (n c s : Nat) (st : LoopState), st.curByte = c % (oc * w) → c + n ≤ oc * w →
      fb ≤ c → c + n ≤ tb →
      (ic = 1 → ∀ i, i < n → c + i ≠ fb ∧ c + i ≠ fb + w) →
      st.pSrc = some s → s + n ≤ src.length →
      chain_loop src ic w oc fb tb n st =
        Except.ok { pSrc := some (s + n), pTgt := st.pTgt ++ (src.drop s).take n,
                    curByte := (c + n) % (oc * w), pTmp := st.pTmp,
                    reads := st.reads ++ List.range' s n } := by
  intro n
  induction n with
  | zero =>
    intro c s st hc _ _ _ _ hs _
    cases st
    simp_all [chain_loop]
  | succ n ih =>
    intro c s st hc hle hfb htb hplain hs hlen
    have hclt : c < oc * w := by omega
    have hc1 : st.curByte = c := by rw [hc, Nat.mod_eq_of_lt hclt]
    have hslt : s < src.length := by omega
    have hb : src[s]? = some src[s] := List.getElem?_eq_getElem hslt
    simp only [chain_loop]
    rw [step_copy src ic w oc fb tb s src[s] st hF (by omega)
      (fun h => by have := hplain h 0 (by omega); omega) hs hb]
    simp only
    rw [ih (c + 1) (s + 1) _ (by simp [hc1]) (by omega) (by omega) (by omega)
      (fun h i hi => by have := hplain h (i + 1) (by omega); omega) rfl (by omega)]
    rw [take_drop_succ src s n src[s] hb]
    simp [List.range'_succ, Nat.add_assoc, Nat.add_comm 1 n]

/-! ## One frame -/

theorem frame_stereo (src : List Byte) (ic w oc pos s : Nat) (st : LoopState)
    (hic : ic ≠ 1) (hF : 0 < oc * w) (hwin : 2 * pos * w + w * 2 ≤ oc * w)
    (hc : st.curByte = 0) (hs : st.pSrc = some s) (hlen : s + w * 2 ≤ src.length) :
    chain_loop src ic w oc (2 * pos * w) (2 * pos * w + w * 2) (oc * w) st =
      Except.ok { pSrc := some (s + w * 2),
                  pTgt := st.pTgt ++ frameBytes w oc pos ((src.drop s).take (w * 2)),
                  curByte := 0, pTmp := st.pTmp,
                  reads := st.reads ++ List.range' s (w * 2) } := by
  have hsplit : oc * w = 2 * pos * w + (w * 2 + (oc * w - (2 * pos * w + w * 2))) := by omega
  have hend : 2 * pos * w + w * 2 + (oc * w - (2 * pos * w + w * 2)) = oc * w := by omega
  unfold frameBytes
  generalize 2 * pos * w = fb at *
  conv => lhs; rw [hsplit]
  rw [chain_loop_add,
    run_zero src ic w oc fb (fb + w * 2) hF fb 0 st (by simp [hc]) (by omega) (by omega)]
  simp only
  rw [chain_loop_add, run_copy src ic w oc fb (fb + w * 2) hF (w * 2) fb s]
  · simp only
    rw [run_zero src ic w oc fb (fb + w * 2) hF (oc * w - (fb + w * 2)) (fb + w * 2)]
    · simp [hend, List.append_assoc]
    · simp
    · omega
    · omega
  · simp
  · omega
  · omega
  · omega
  · exact fun h => absurd h hic
  · exact hs
  · exact hlen

theorem mark_run (src : List Byte) (w oc fb n s : Nat) (st : LoopState)
    (hF : 0 < oc * w) (hn : n + 1 ≤ w) (hle : fb + w * 2 ≤ oc * w)
    (hc : st.curByte = fb) (hs : st.pSrc = some s) (hlen : s + (n + 1) ≤ src.length) :
    chain_loop src 1 w oc fb (fb + w * 2) (n + 1) st =
      Except.ok { pSrc := some (s + (n + 1)), pTgt := st.pTgt ++ (src.drop s).take (n + 1),
                  curByte := (fb + (n + 1)) % (oc * w), pTmp := some s,
                  reads := st.reads ++ List.range' s (n + 1) } := by
  have hslt : s < src.length := by omega
  have hb : src[s]? = some src[s] := List.getElem?_eq_getElem hslt
  simp only [chain_loop]
  rw [step_mark src w oc fb s src[s] st hF (by omega) hc hs hb]
  simp only
  rw [run_copy src 1 w oc fb (fb + w * 2) hF n (fb + 1) (s + 1)]
  · rw [take_drop_succ src s n src[s] hb]
    simp [List.range'_succ, Nat.add_assoc, Nat.add_comm 1 n]
  · simp
  · omega
  · omega
  · omega
  · intro _ i hi
    omega
  · rfl
  · omega

theorem rewind_run (src : List Byte) (w oc fb n t : Nat) (st : LoopState)
    (hF : 0 < oc * w) (hn : n + 1 ≤ w) (hle : fb + w * 2 ≤ oc * w)
    (hc : st.curByte = fb + w) (ht : st.pTmp = some t) (hlen : t + (n + 1) ≤ src.length) :
    chain_loop src 1 w oc fb (fb + w * 2) (n + 1) st =
      Except.ok { pSrc := some (t + (n + 1)), pTgt := st.pTgt ++ (src.drop t).take (n + 1),
                  curByte := (fb + w + (n + 1)) % (oc * w), pTmp := some t,
                  reads := st.reads ++ List.range' t (n + 1) } := by
  have htlt : t < src.length := by omega
  have hb : src[t]? = some src[t] := List.getElem?_eq_getElem htlt
  simp only [chain_loop]
  rw [step_rewind src w oc fb t src[t] st hF (by omega) hc ht hb]
  simp only
  rw [run_copy src 1 w oc fb (fb + w * 2) hF n (fb + w + 1) (t + 1)]
  · rw [take_drop_succ src t n src[t] hb]
    simp [List.range'_succ, Nat.add_assoc, Nat.add_comm 1 n]
  · simp
  · omega
  · omega
  · omega
  · intro _ i hi
    omega
  · rfl
  · omega

theorem frame_mono (src : List Byte) (w oc pos s : Nat) (st : LoopState)
    (hF : 0 < oc * w) (hwin : 2 * pos * w + w * 2 ≤ oc * w)
    (hc : st.curByte = 0) (hs : st.pSrc = some s) (hlen : s + w ≤ src.length) :
    chain_loop src 1 w oc (2 * pos * w) (2 * pos * w + w * 2) (oc * w) st =
      Except.ok { pSrc := some (s + w),
                  pTgt := st.pTgt ++
                    frameBytes w oc pos ((src.drop s).take w ++ (src.drop s).take w),
                  curByte := 0, pTmp := some s,
                  reads := st.reads ++ (List.range' s w ++ List.range' s w) } := by
  have hw : 0 < w := by
    rcases Nat.eq_zero_or_pos w with h | h
    · rw [h] at hF
      simp at hF
    · exact h
  obtain ⟨n, hn⟩ : ∃ n, w = n + 1 := ⟨w - 1, by omega⟩
  have hsplit : oc * w =
      2 * pos * w + ((n + 1) + ((n + 1) + (oc * w - (2 * pos * w + w * 2)))) := by omega
  have hend : 2 * pos * w + w * 2 + (oc * w - (2 * pos * w + w * 2)) = oc * w := by omega
  unfold frameBytes
  generalize 2 * pos * w = fb at *
  conv => lhs; rw [hsplit]
  rw [chain_loop_add,
    run_zero src 1 w oc fb (fb + w * 2) hF fb 0 st (by simp [hc]) (by omega) (by omega)]
  simp only
  rw [chain_loop_add, mark_run src w oc fb n s _ hF (by omega) hwin]
  · simp only
    rw [chain_loop_add, rewind_run src w oc fb n s _ hF (by omega) hwin]
    · simp only
      rw [run_zero src 1 w oc fb (fb + w * 2) hF (oc * w - (fb + w * 2)) (fb + w * 2)]
      · have e1 : fb + w + (n + 1) = fb + w * 2 := by omega
        simp [hend, e1, ← hn, List.append_assoc]
      · simp only
        congr 1
        omega
      · omega
      · omega
    · simp only
      rw [Nat.mod_eq_of_lt (by omega)]
      omega
    · rfl
    · omega
  · simp only [Nat.zero_add]
    exact Nat.mod_eq_of_lt (by omega)
  · exact hs
  · omega

theorem frame_valid (src : List Byte) (ic w oc pos s : Nat) (st : LoopState)
    (hic : ic = 1 ∨ ic = 2) (hF : 0 < oc * w) (hwin : 2 * pos * w + w * 2 ≤ oc * w)
    (hc : st.curByte = 0) (hs : st.pSrc = some s) (hlen : s + ic * w ≤ src.length) :
    ∃ st2, chain_loop src ic w oc (2 * pos * w) (2 * pos * w + w * 2) (oc * w) st = Except.ok st2 ∧
      st2.curByte = 0 ∧ st2.pSrc = some (s + ic * w) ∧
      st2.pTgt = st.pTgt ++ frameBytes w oc pos (windowBytes src ic w s) ∧
      st2.reads = st.reads ++ windowReads ic w s := by
  rcases hic with h1 | h2
  · subst h1
    refine ⟨_, frame_mono src w oc pos s st hF hwin hc hs (by omega), rfl, ?_, ?_, ?_⟩
    · simp
    · simp [windowBytes]
    · simp [windowReads]
  · subst h2
    refine ⟨_, frame_stereo src 2 w oc pos s st (by omega) hF hwin hc hs (by omega), rfl, ?_, ?_, ?_⟩
    · simp [Nat.mul_comm]
    · simp [windowBytes]
    · simp [windowReads]

/-! ## All frames -/

theorem frames_valid (src : List Byte) (ic w oc pos : Nat)
    (hic : ic = 1 ∨ ic = 2) (hF : 0 < oc * w) (hwin : 2 * pos * w + w * 2 ≤ oc * w) :
    ∀ (n s : Nat) (st : LoopState), st.curByte = 0 → st.pSrc = some s →
      s + n * (ic * w) ≤ src.length →
      ∃ st2, chain_loop src ic w oc (2 * pos * w) (2 * pos * w + w * 2) (n * (oc * w)) st
          = Except.ok st2 ∧
        st2.curByte = 0 ∧ st2.pSrc = some (s + n * (ic * w)) ∧
        st2.pTgt = st.pTgt ++ framesOut src ic w oc pos s n ∧
        st2.reads = st.reads ++ framesReads ic w s n := by
  intro n
  induction n with
  | zero =>
    intro s st hc hs _
    exact ⟨st, by simp [chain_loop], hc, by simpa using hs, by simp [framesOut],
      by simp [framesReads]⟩
  | succ n ih =>
    intro s st hc hs hlen
    have e0 : (n + 1) * (ic * w) = ic * w + n * (ic * w) := by ring
    have hlen1 : s + ic * w ≤ src.length := by
      rw [e0] at hlen
      omega
    obtain ⟨st1, hrun1, hc1, hs1, ht1, hr1⟩ := frame_valid src ic w oc pos s st hic hF hwin hc hs hlen1
    have hlen2 : s + ic * w + n * (ic * w) ≤ src.length := by
      rw [e0] at hlen
      omega
    obtain ⟨st2, hrun2, hc2, hs2, ht2, hr2⟩ := ih (s + ic * w) st1 hc1 hs1 hlen2
    refine ⟨st2, ?_, hc2, ?_, ?_, ?_⟩
    · have e : (n + 1) * (oc * w) = oc * w + n * (oc * w) := by ring
      rw [e, chain_loop_add, hrun1]
      exact hrun2
    · have e : (n + 1) * (ic * w) = ic * w + n * (ic * w) := by ring
      rw [hs2, e, Nat.add_assoc]
    · rw [ht2, ht1]
      simp [framesOut, List.append_assoc]
    · rw [hr2, hr1]
      simp [framesReads, List.append_assoc]

/-- For a valid call the remapping succeeds, sweeps the whole input and yields
the frame-by-frame closed form. -/
theorem remap_valid (src : List Byte) (ic w oc pos n : Nat)
    (hic : ic = 1 ∨ ic = 2) (hw : 0 < w) (hdvd : ic ∣ oc) (hwin : 2 * pos + 1 < oc)
    (hlen : src.length = n * (ic * w)) (hfit : src.length * (oc / ic) < 4294967296) :
    ∃ st, chain_remap src ic w oc pos = Except.ok st ∧
      st.curByte = 0 ∧ st.pSrc = some src.length ∧
      st.pTgt = framesOut src ic w oc pos 0 n ∧
      st.reads = framesReads ic w 0 n := by
  have hic0 : ic ≠ 0 := by omega
  have hocpos : 0 < oc := by omega
  have hF : 0 < oc * w := Nat.mul_pos hocpos hw
  have hoc2 : 2 * pos + 2 ≤ oc := by
    rcases hic with h | h
    · omega
    · subst h
      obtain ⟨r, hr⟩ := hdvd
      omega
  have hwin2 : 2 * pos * w + w * 2 ≤ oc * w := by
    calc 2 * pos * w + w * 2 = (2 * pos + 2) * w := by ring
      _ ≤ oc * w := Nat.mul_le_mul_right w hoc2
  have hsize : src.length * (oc / ic) = n * (oc * w) := by
    obtain ⟨r, hr⟩ := hdvd
    have hicpos : 0 < ic := by omega
    rw [hlen, hr, Nat.mul_div_cancel_left r hicpos]
    ring
  obtain ⟨st2, hrun, hc2, hs2, ht2, hr2⟩ := frames_valid src ic w oc pos hic hF hwin2 n 0
    { pSrc := some 0, pTgt := [], curByte := 0, pTmp := none, reads := [] } rfl rfl (by omega)
  refine ⟨st2, ?_, hc2, ?_, ?_, ?_⟩
  · have hmod : (src.length * (oc / ic)) % 4294967296 = n * (oc * w) := by
      rw [Nat.mod_eq_of_lt hfit, hsize]
    rw [chain_remap_eq]
    simp only [tgtBufSize, hic0, if_false, hmod]
    exact hrun
  · rw [hs2, hlen]
    simp
  · simpa using ht2
  · simpa using hr2

/-! ## Reading the closed form -/

theorem windowBytes_length (src : List Byte) (ic w s : Nat) (hic : ic = 1 ∨ ic = 2)
    (hlen : s + ic * w ≤ src.length) : (windowBytes src ic w s).length = w * 2 := by
  rcases hic with h | h
  · subst h
    simp only [windowBytes, if_true, List.length_append, List.length_take, List.length_drop]
    omega
  · subst h
    simp only [windowBytes, List.length_take, List.length_drop]
    simp
    omega

theorem frameBytes_length (w oc pos : Nat) (window : List Byte)
    (hwl : window.length = w * 2) (hwin : 2 * pos * w + w * 2 ≤ oc * w) :
    (frameBytes w oc pos window).length = oc * w := by
  simp only [frameBytes, List.length_append, List.length_replicate, hwl]
  omega

theorem frameBytes_window (w oc pos j : Nat) (window : List Byte)
    (hwl : window.length = w * 2) (hj : j < w * 2) :
    (frameBytes w oc pos window)[2 * pos * w + j]? = window[j]? := by
  unfold frameBytes
  rw [List.append_assoc, List.getElem?_append_right (by simp)]
  simp only [List.length_replicate, Nat.add_sub_cancel_left]
  rw [List.getElem?_append_left (by omega)]

theorem frameBytes_outside (w oc pos c : Nat) (window : List Byte)
    (hwl : window.length = w * 2) (hwin : 2 * pos * w + w * 2 ≤ oc * w) (hc : c < oc * w)
    (hout : ¬ (2 * pos * w ≤ c ∧ c < 2 * pos * w + w * 2)) :
    (frameBytes w oc pos window)[c]? = some 0 := by
  unfold frameBytes
  by_cases h : c < 2 * pos * w
  · rw [List.append_assoc, List.getElem?_append_left (by simpa using h)]
    simp [h]
  · rw [List.getElem?_append_right (by simp [hwl]; omega)]
    rw [List.getElem?_replicate]
    simp only [List.length_append, List.length_replicate, hwl]
    rw [if_pos (by omega)]

theorem framesOut_length (src : List Byte) (ic w oc pos : Nat) (hic : ic = 1 ∨ ic = 2)
    (hwin : 2 * pos * w + w * 2 ≤ oc * w) :
    ∀ (n s : Nat), s + n * (ic * w) ≤ src.length →
      (framesOut src ic w oc pos s n).length = n * (oc * w) := by
  intro n
  induction n with
  | zero => intro s _; simp [framesOut]
  | succ n ih =>
    intro s hlen
    have e0 : (n + 1) * (ic * w) = ic * w + n * (ic * w) := by ring
    have e1 : (n + 1) * (oc * w) = oc * w + n * (oc * w) := by ring
    rw [e0] at hlen
    simp only [framesOut, List.length_append]
    rw [frameBytes_length w oc pos _ (windowBytes_length src ic w s hic (by omega)) hwin,
      ih (s + ic * w) (by omega), e1]

theorem framesOut_getElem? (src : List Byte) (ic w oc pos : Nat) (hic : ic = 1 ∨ ic = 2)
    (hwin : 2 * pos * w + w * 2 ≤ oc * w) :
    ∀ (n s k c : Nat), s + n * (ic * w) ≤ src.length → k < n → c < oc * w →
      (framesOut src ic w oc pos s n)[k * (oc * w) + c]? =
        (frameBytes w oc pos (windowBytes src ic w (s + k * (ic * w))))[c]? := by
  intro n
  induction n with
  | zero => intro s k c _ hk _; omega
  | succ n ih =>
    intro s k c hlen hk hc
    have e0 : (n + 1) * (ic * w) = ic * w + n * (ic * w) := by ring
    rw [e0] at hlen
    have hfl := frameBytes_length w oc pos _ (windowBytes_length src ic w s hic (by omega)) hwin
    simp only [framesOut]
    cases k with
    | zero =>
      simp only [Nat.zero_mul, Nat.zero_add, Nat.add_zero]
      rw [List.getElem?_append_left (by omega)]
    | succ k =>
      have e1 : (k + 1) * (oc * w) + c = oc * w + (k * (oc * w) + c) := by ring
      have e2 : s + (k + 1) * (ic * w) = s + ic * w + k * (ic * w) := by ring
      rw [e1, e2, List.getElem?_append_right (by omega), hfl, Nat.add_sub_cancel_left]
      exact ih (s + ic * w) k c (by omega) (by omega) hc

theorem windowBytes_stereo (src : List Byte) (w s j : Nat) (hj : j < w * 2) :
    (windowBytes src 2 w s)[j]? = src[s + j]? := by
  simp only [windowBytes]
  simp only [show ¬ (2 = 1) by omega, if_false]
  rw [List.getElem?_take_of_lt hj, List.getElem?_drop]

theorem windowBytes_mono_first (src : List Byte) (w s j : Nat) (hj : j < w)
    (hlen : s + w ≤ src.length) :
    (windowBytes src 1 w s)[j]? = src[s + j]? := by
  simp only [windowBytes, if_true]
  rw [List.getElem?_append_left (by simp; omega), List.getElem?_take_of_lt hj,
    List.getElem?_drop]

theorem windowBytes_mono_second (src : List Byte) (w s j : Nat) (hj : j < w)
    (hlen : s + w ≤ src.length) :
    (windowBytes src 1 w s)[w + j]? = src[s + j]? := by
  simp only [windowBytes, if_true]
  have hl : ((src.drop s).take w).length = w := by simp; omega
  rw [List.getElem?_append_right (by omega), hl, Nat.add_sub_cancel_left,
    List.getElem?_take_of_lt hj, List.getElem?_drop]

theorem framesReads_stereo (w : Nat) :
    ∀ (n s : Nat), framesReads 2 w s n = List.range' s (n * (2 * w)) := by
  intro n
  induction n with
  | zero => intro s; simp [framesReads]
  | succ n ih =>
    intro s
    have e : (n + 1) * (2 * w) = w * 2 + n * (2 * w) := by ring
    simp only [framesReads, windowReads, show ¬ (2 = 1) by omega, if_false]
    rw [ih, e, show s + 2 * w = s + w * 2 by omega, List.range'_append_1,
      Nat.add_comm (n * (2 * w)) (w * 2)]

theorem step_shape (src : List Byte) (ic w oc fb tb : Nat) (st st1 : LoopState)
    (h : chain_step src ic w oc fb tb st = Except.ok st1) :
    ∃ b, st1.pTgt = st.pTgt ++ [b] ∧ (¬ (fb ≤ st.curByte ∧ st.curByte < tb) → b = 0) ∧
      st1.curByte = (st.curByte + 1) % (oc * w) := by
  unfold chain_step at h
  by_cases hF : oc * w = 0
  · simp only [hF, if_true] at h
    split at h <;> simp at h
  · simp only [hF, if_false] at h
    by_cases hin : fb ≤ st.curByte ∧ st.curByte < tb
    · simp only [hin, and_self, if_true] at h
      split at h
      · simp at h
      · rename_i st0 heq
        split at heq
        · simp at heq
        · split at heq
          · simp at heq
          · rename_i b hb
            simp only [Except.ok.injEq] at heq h
            subst heq
            subst h
            exact ⟨b, rfl, fun hn => absurd hin hn, rfl⟩
    · simp only [hin, if_false] at h
      simp only [Except.ok.injEq] at h
      subst h
      exact ⟨0, rfl, fun _ => rfl, rfl⟩

theorem loop_outside_zero (src : List Byte) (ic w oc fb tb : Nat) :
    ∀ (n : Nat) (st st2 : LoopState),
      chain_loop src ic w oc fb tb n st = Except.ok st2 →
      st.curByte = st.pTgt.length % (oc * w) →
      (∀ i, i < st.pTgt.length → ¬ (fb ≤ i % (oc * w) ∧ i % (oc * w) < tb) →
        st.pTgt[i]? = some 0) →
      st2.pTgt.length = st.pTgt.length + n ∧
      (∀ i, i < st2.pTgt.length → ¬ (fb ≤ i % (oc * w) ∧ i % (oc * w) < tb) →
        st2.pTgt[i]? = some 0) := by
  intro n
  induction n with
  | zero =>
    intro st st2 h hc hz
    simp only [chain_loop, Except.ok.injEq] at h
    subst h
    exact ⟨rfl, hz⟩
  | succ n ih =>
    intro st st2 h hc hz
    simp only [chain_loop] at h
    cases hstep : chain_step src ic w oc fb tb st with
    | error e => simp [hstep] at h
    | ok st1 =>
      simp only [hstep] at h
      obtain ⟨b, hb, hb0, hc1⟩ := step_shape src ic w oc fb tb st st1 hstep
      have hlen1 : st1.pTgt.length = st.pTgt.length + 1 := by simp [hb]
      have hc1' : st1.curByte = st1.pTgt.length % (oc * w) := by
        rw [hc1, hlen1, hc, Nat.mod_add_mod]
      have hz1 : ∀ i, i < st1.pTgt.length → ¬ (fb ≤ i % (oc * w) ∧ i % (oc * w) < tb) →
          st1.pTgt[i]? = some 0 := by
        intro i hi hout
        rw [hb]
        by_cases hlt : i < st.pTgt.length
        · rw [List.getElem?_append_left hlt]
          exact hz i hlt hout
        · have hi' : i = st.pTgt.length := by omega
          rw [List.getElem?_append_right (by omega), hi']
          simp only [Nat.sub_self, List.getElem?_cons_zero, Option.some.injEq]
          apply hb0
          rw [hc, ← hi']
          exact hout
      obtain ⟨hl2, hz2⟩ := ih st1 st2 h hc1' hz1
      exact ⟨by omega, hz2⟩

theorem remap_outside_zero (src : List Byte) (ic w oc pos : Nat) (st : LoopState)
    (h : chain_remap src ic w oc pos = Except.ok st) :
    ∀ i, i < st.pTgt.length →
      ¬ (2 * pos * w ≤ i % (oc * w) ∧ i % (oc * w) < 2 * pos * w + w * 2) →
      st.pTgt[i]? = some 0 := by
  rw [chain_remap_eq] at h
  cases hsz : tgtBufSize src.length oc ic with
  | error e => simp [hsz] at h
  | ok size =>
    simp only [hsz] at h
    exact (loop_outside_zero src ic w oc _ _ size _ st h (by simp) (by simp)).2

theorem remap_length (src : List Byte) (ic w oc pos : Nat) (st : LoopState)
    (h : chain_remap src ic w oc pos = Except.ok st) :
    ic ≠ 0 ∧ st.pTgt.length = (src.length * (oc / ic)) % 4294967296 := by
  rw [chain_remap_eq] at h
  by_cases hic : ic = 0
  · simp [tgtBufSize, hic] at h
  · simp only [tgtBufSize, hic, if_false] at h
    have := (loop_outside_zero src ic w oc _ _ _ _ st h (by simp) (by simp)).1
    exact ⟨hic, by simpa using this⟩

/-! ## Valid calls: the window of every frame -/

theorem valid_window (w oc pos ic : Nat) (hic : ic = 1 ∨ ic = 2) (hdvd : ic ∣ oc)
    (hwin : 2 * pos + 1 < oc) : 2 * pos * w + w * 2 ≤ oc * w := by
  have hoc2 : 2 * pos + 2 ≤ oc := by
    rcases hic with h | h
    · omega
    · subst h
      obtain ⟨r, hr⟩ := hdvd
      omega
  calc 2 * pos * w + w * 2 = (2 * pos + 2) * w := by ring
    _ ≤ oc * w := Nat.mul_le_mul_right w hoc2

theorem remap_window_byte (src : List Byte) (ic w oc pos n : Nat)
    (hic : ic = 1 ∨ ic = 2) (hw : 0 < w) (hdvd : ic ∣ oc) (hwin : 2 * pos + 1 < oc)
    (hlen : src.length = n * (ic * w)) (hfit : src.length * (oc / ic) < 4294967296) :
    ∃ st, chain_remap src ic w oc pos = Except.ok st ∧
      st.pSrc = some src.length ∧ st.reads = framesReads ic w 0 n ∧
      st.pTgt.length = n * (oc * w) ∧
      ∀ k j, k < n → j < w * 2 →
        st.pTgt[k * (oc * w) + (2 * pos * w + j)]? = (windowBytes src ic w (k * (ic * w)))[j]? := by
  obtain ⟨st, hst, _, hs, ht, hr⟩ := remap_valid src ic w oc pos n hic hw hdvd hwin hlen hfit
  have hwin2 := valid_window w oc pos ic hic hdvd hwin
  refine ⟨st, hst, hs, hr, ?_, ?_⟩
  · rw [ht]
    exact framesOut_length src ic w oc pos hic hwin2 n 0 (by omega)
  · intro k j hk hj
    have hkl : k * (ic * w) + ic * w ≤ src.length := by
      have h1 : (k + 1) * (ic * w) ≤ n * (ic * w) := Nat.mul_le_mul_right _ hk
      have h2 : (k + 1) * (ic * w) = k * (ic * w) + ic * w := by ring
      omega
    rw [ht, framesOut_getElem? src ic w oc pos hic hwin2 n 0 k (2 * pos * w + j) (by omega) hk
      (by omega), Nat.zero_add]
    exact frameBytes_window w oc pos j _ (windowBytes_length src ic w _ hic hkl) hj

/-! ## Degenerate passthrough -/

theorem framesOut_passthrough (src : List Byte) (w : Nat) :
    ∀ (n s : Nat), framesOut src 2 w 2 0 s n = (src.drop s).take (n * (2 * w)) := by
  intro n
  induction n with
  | zero => intro s; simp [framesOut]
  | succ n ih =>
    intro s
    have e : (n + 1) * (2 * w) = w * 2 + n * (2 * w) := by ring
    have e2 : 2 * w - w * 2 = 0 := by omega
    simp only [framesOut, frameBytes, windowBytes, show ¬ (2 = 1) by omega, if_false]
    rw [ih, e, List.take_add, List.drop_drop]
    simp [e2, Nat.add_comm, Nat.mul_comm]

/-! ## A window outside the frame -/

theorem run_all_zero (src : List Byte) (ic w oc fb tb : Nat) (hF : 0 < oc * w)
    (hfb : oc * w ≤ fb) :
    ∀ (n : Nat) (st : LoopState), st.curByte < oc * w →
      ∃ st2, chain_loop src ic w oc fb tb n st = Except.ok st2 ∧
        st2.pTgt = st.pTgt ++ List.replicate n 0 ∧ st2.reads = st.reads := by
  intro n
  induction n with
  | zero => intro st _; exact ⟨st, by simp [chain_loop], by simp, rfl⟩
  | succ n ih =>
    intro st hc
    have hnot : ¬ (fb ≤ st.curByte ∧ st.curByte < tb) := by omega
    simp only [chain_loop]
    rw [step_zero src ic w oc fb tb st hF hnot]
    simp only
    obtain ⟨st2, h2, ht2, hr2⟩ := ih
      { st with pTgt := st.pTgt ++ [0], curByte := (st.curByte + 1) % (oc * w) }
      (Nat.mod_lt _ hF)
    exact ⟨st2, h2, by simp [ht2, List.replicate_succ], by simp [hr2]⟩

/-! ## Structures and caps -/

theorem get_set_same (struc : GstStructure) (field : String) (v : GValue) :
    gst_structure_get (gst_structure_set struc field v) field = some v := by
  unfold gst_structure_get gst_structure_set
  simp only
  induction struc.fields with
  | nil => simp [setField]
  | cons kv rest ih =>
    simp only [setField]
    by_cases h : kv.1 = field
    · simp [h]
    · simp [h, List.find?_cons, ih]

theorem get_set_other (struc : GstStructure) (field other : String) (v : GValue)
    (hne : other ≠ field) :
    gst_structure_get (gst_structure_set struc field v) other = gst_structure_get struc other := by
  unfold gst_structure_get gst_structure_set
  simp only
  induction struc.fields with
  | nil => simp [setField, hne.symm]
  | cons kv rest ih =>
    obtain ⟨k, x⟩ := kv
    simp only [setField]
    by_cases h : k = field
    · subst h
      have hb : (k == other) = false := by simpa using hne.symm
      simp [List.find?_cons, hb]
    · have hb : (k == field) = false := by simpa using h
      simp only [hb]
      by_cases h3 : k = other
      · subst h3
        simp [List.find?_cons]
      · have hb3 : (k == other) = false := by simpa using h3
        simpa [List.find?_cons, hb3] using ih

theorem get_int_of_get (struc : GstStructure) (field : String) (v : Int)
    (h : gst_structure_get struc field = some (GValue.int v)) :
    gst_structure_get_int (some struc) field = some v := by
  simp [gst_structure_get_int, h]

theorem chain_of_caps (push : GstBuffer → GstFlowReturn) (filter : GstReArrange)
    (buf : GstBuffer) (bits ic : Nat)
    (hw : gst_rearrange_get_caps_int buf.caps "width" = (bits : Int))
    (hc : gst_rearrange_get_caps_int buf.caps "channels" = (ic : Int)) :
    gst_rearrange_chain push filter buf =
      match chain_remap buf.data ic (bits / 8) filter.outChannels filter.outPos with
      | Except.error e => Except.error e
      | Except.ok st =>
        Except.ok
          { pushed := { data := st.pTgt,
                        caps := gst_rearrange_set_buffer_caps buf.caps filter.outChannels },
            ret := push { data := st.pTgt,
                          caps := gst_rearrange_set_buffer_caps buf.caps filter.outChannels } } := by
  have h8 : Int.tdiv (bits : Int) 8 = ((bits / 8 : Nat) : Int) := (Int.ofNat_tdiv bits 8).symm
  unfold gst_rearrange_chain chain_remap
  simp only [hw, hc, h8]

theorem remap_window_outside (src : List Byte) (ic w oc pos : Nat)
    (hic : ic ≠ 0) (hw : 0 < w) (hoc : 0 < oc) (hpos : oc ≤ 2 * pos) :
    ∃ st, chain_remap src ic w oc pos = Except.ok st ∧
      st.pTgt = List.replicate ((src.length * (oc / ic)) % 4294967296) 0 ∧ st.reads = [] := by
  have hF : 0 < oc * w := Nat.mul_pos hoc hw
  have hfb : oc * w ≤ 2 * pos * w := Nat.mul_le_mul_right w hpos
  obtain ⟨st, hst, ht, hr⟩ := run_all_zero src ic w oc (2 * pos * w) (2 * pos * w + w * 2) hF hfb
    ((src.length * (oc / ic)) % 4294967296)
    { pSrc := some 0, pTgt := [], curByte := 0, pTmp := none, reads := [] } hF
  refine ⟨st, ?_, by simpa using ht, by simpa using hr⟩
  rw [chain_remap_eq]
  simp only [tgtBufSize, hic, if_false]
  exact hst

theorem silence_length (n : Nat) : (silence n).length = n := by
  simp only [silence, List.length_replicate]

theorem silence_head (n : Nat) (hn : 0 < n) : (silence n)[0]? = some 0 := by
  simp only [silence, List.getElem?_replicate, hn, if_true]

/-- When the product that sizes the target buffer wraps to 0, the loop does
not run: nothing is written and nothing is read. -/
theorem remap_wrapped (src : List Byte) (ic w oc pos : Nat)
    (hsize : tgtBufSize src.length oc ic = Except.ok 0) :
    chain_remap src ic w oc pos =
      Except.ok { pSrc := some 0, pTgt := [], curByte := 0, pTmp := none, reads := [] } := by
  rw [chain_remap_eq, hsize]
  simp only [chain_loop]

/-! ## Concrete scenarios -/

/-- Scenario A: stereo, 16 bit, four output channels, rear pair. -/
theorem scenario_A (L0 L1 R0 R1 : Byte) :
    chain_remap [L0, L1, R0, R1] 2 2 4 1 =
      Except.ok { pSrc := some 4, pTgt := [0, 0, 0, 0, L0, L1, R0, R1], curByte := 0,
                  pTmp := none, reads := [0, 1, 2, 3] } := by
  simp [chain_remap_eq, tgtBufSize, chain_loop, chain_step]

/-- Scenario B: mono, 16 bit, four output channels, front pair. -/
theorem scenario_B (S0 S1 : Byte) :
    chain_remap [S0, S1] 1 2 4 0 =
      Except.ok { pSrc := some 2, pTgt := [S0, S1, S0, S1, 0, 0, 0, 0], curByte := 0,
                  pTmp := some 0, reads := [0, 1, 0, 1] } := by
  simp [chain_remap_eq, tgtBufSize, chain_loop, chain_step]

/-- Multi-frame scenario: two stereo 16 bit frames, two output channels, front pair. -/
theorem scenario_passthrough (a0 a1 a2 a3 b0 b1 b2 b3 : Byte) :
    chain_remap [a0, a1, a2, a3, b0, b1, b2, b3] 2 2 2 0 =
      Except.ok { pSrc := some 8, pTgt := [a0, a1, a2, a3, b0, b1, b2, b3], curByte := 0,
                  pTmp := none, reads := [0, 1, 2, 3, 4, 5, 6, 7] } := by
  simp [chain_remap_eq, tgtBufSize, chain_loop, chain_step]

/-! ## The laws -/

/-- C1, counterexample. A stereo input of 2^30 bytes, 16 bit, sent to the front
pair of eight channels: the product `buf->size * (8 / 2)` is 2^32, which is 0
as a `guint`; the target buffer is empty and the loop does not run, so the
output has no byte at the place where the claim puts input byte 0. -/
theorem placement_law_stereo_wraps :
    (2 ∈ [2, 4, 8] ∧ 8 ∈ [2, 4, 6, 8] ∧ 2 * 0 + 1 < 8 ∧
      2 * 2 ∣ (silence 1073741824).length) ∧
    tgtBufSize (silence 1073741824).length 8 2 = Except.ok 0 ∧
    chain_remap (silence 1073741824) 2 2 8 0 =
      Except.ok { pSrc := some 0, pTgt := [], curByte := 0, pTmp := none, reads := [] } ∧
    0 < (silence 1073741824).length / (2 * 2) ∧
    (silence 1073741824)[0]? = some 0 ∧
    ([] : List Byte)[0 * 8 * 2 + 2 * 0 * 2 + 0]? = none := by
  have hsize : tgtBufSize (silence 1073741824).length 8 2 = Except.ok 0 := by
    rw [silence_length]
    rfl
  refine ⟨⟨by decide, by decide, by decide, ?_⟩, hsize, remap_wrapped _ 2 2 8 0 hsize, ?_,
    silence_head _ (by decide), rfl⟩
  · rw [silence_length]
    decide
  · rw [silence_length]
    decide

/-- C1, as amended: placement law (stereo). For a stereo input whose length is a
multiple of `2 * width` and whose output size `len * (outChannels / 2)` is
below 2^32, with `width` in {2, 4, 8}, `outChannels` in {2, 4, 6, 8} and
`2 * pos + 1 < outChannels` (which forces `pos` into 0..3), the remapping of
`gst_rearrange_chain` completes, and for every frame index `k` and every `j`
below `2 * width` the output byte at `k * outChannels * width + 2 * pos * width + j`
is the input byte at `k * 2 * width + j`. -/
theorem placement_law_stereo (src : List Byte) (width outChannels pos : Nat)
    (hwidth : width ∈ [2, 4, 8]) (hout : outChannels ∈ [2, 4, 6, 8])
    (hpos : 2 * pos + 1 < outChannels) (hlen : 2 * width ∣ src.length)
    (hfit : src.length * (outChannels / 2) < 4294967296) :
    ∃ st, chain_remap src 2 width outChannels pos = Except.ok st ∧
      ∀ k j, k < src.length / (2 * width) → j < 2 * width →
        k * 2 * width + j < src.length ∧
        st.pTgt[k * outChannels * width + 2 * pos * width + j]? = src[k * 2 * width + j]? := by
  have hw : 0 < width := by
    simp only [List.mem_cons, List.mem_singleton, List.not_mem_nil, or_false] at hwidth
    omega
  have hdvd : 2 ∣ outChannels := by
    simp only [List.mem_cons, List.mem_singleton, List.not_mem_nil, or_false] at hout
    omega
  obtain ⟨n, hn⟩ := hlen
  have hlen2 : src.length = n * (2 * width) := by rw [hn, Nat.mul_comm]
  obtain ⟨st, hst, _, _, _, hbytes⟩ :=
    remap_window_byte src 2 width outChannels pos n (Or.inr rfl) hw hdvd hpos hlen2 hfit
  refine ⟨st, hst, ?_⟩
  intro k j hk hj
  have hkn : k < n := by
    rw [hlen2, Nat.mul_div_cancel _ (by omega : 0 < 2 * width)] at hk
    exact hk
  have hkl : (k + 1) * (2 * width) ≤ n * (2 * width) := Nat.mul_le_mul_right _ hkn
  have e1 : (k + 1) * (2 * width) = k * 2 * width + 2 * width := by ring
  have e2 : k * outChannels * width + 2 * pos * width + j
      = k * (outChannels * width) + (2 * pos * width + j) := by ring
  have e3 : k * 2 * width + j = k * (2 * width) + j := by ring
  refine ⟨by omega, ?_⟩
  rw [e2, hbytes k j hkn (by omega), e3]
  exact windowBytes_stereo src width _ j (by omega)

/-- Witness of the amended C1: one 16 bit stereo frame sent to the rear pair of
four channels. -/
theorem placement_law_stereo_witness :
    (2 ∈ [2, 4, 8] ∧ 4 ∈ [2, 4, 6, 8] ∧ 2 * 1 + 1 < 4 ∧
      2 * 2 ∣ [(11 : Byte), 12, 13, 14].length ∧
      [(11 : Byte), 12, 13, 14].length * (4 / 2) < 4294967296) ∧
    ∃ st, chain_remap [11, 12, 13, 14] 2 2 4 1 = Except.ok st ∧
      ∀ k j, k < [(11 : Byte), 12, 13, 14].length / (2 * 2) → j < 2 * 2 →
        k * 2 * 2 + j < [(11 : Byte), 12, 13, 14].length ∧
        st.pTgt[k * 4 * 2 + 2 * 1 * 2 + j]? = [(11 : Byte), 12, 13, 14][k * 2 * 2 + j]? :=
  ⟨⟨by decide, by decide, by decide, by decide, by decide⟩,
    placement_law_stereo [11, 12, 13, 14] 2 4 1 (by decide) (by decide) (by decide) (by decide)
      (by decide)⟩

/-- C2, counterexample. A mono input of 2^29 bytes, 16 bit, sent to the front
pair of eight channels: the product `buf->size * (8 / 1)` is 2^32, which is 0
as a `guint`; the target buffer is empty and the loop does not run, so neither
slot of frame 0 holds input sample 0. -/
theorem mono_duplication_law_wraps :
    (2 ∈ [2, 4, 8] ∧ 8 ∈ [2, 4, 6, 8] ∧ 2 * 0 + 1 < 8 ∧ 2 ∣ (silence 536870912).length) ∧
    tgtBufSize (silence 536870912).length 8 1 = Except.ok 0 ∧
    chain_remap (silence 536870912) 1 2 8 0 =
      Except.ok { pSrc := some 0, pTgt := [], curByte := 0, pTmp := none, reads := [] } ∧
    0 < (silence 536870912).length / 2 ∧
    (silence 536870912)[0]? = some 0 ∧
    ([] : List Byte)[0 * 8 * 2 + 2 * 0 * 2 + 0]? = none ∧
    ([] : List Byte)[0 * 8 * 2 + 2 * 0 * 2 + 2 + 0]? = none := by
  have hsize : tgtBufSize (silence 536870912).length 8 1 = Except.ok 0 := by
    rw [silence_length]
    rfl
  refine ⟨⟨by decide, by decide, by decide, ?_⟩, hsize, remap_wrapped _ 1 2 8 0 hsize, ?_,
    silence_head _ (by decide), rfl, rfl⟩
  · rw [silence_length]
    decide
  · rw [silence_length]
    decide

/-- C2, as amended: mono duplication law. For a mono input whose length is a
multiple of `width` and whose output size `len * (outChannels / 1)` is below
2^32, with `width` in {2, 4, 8}, `outChannels` in {2, 4, 6, 8} and
`2 * pos + 1 < outChannels`, the remapping of `gst_rearrange_chain` completes,
and in every output frame `k` both channel slots of the active window hold
input sample `k`: for every `j` below `width` the output bytes at
`k * outChannels * width + 2 * pos * width + j` and at
`k * outChannels * width + 2 * pos * width + width + j` both are the input
byte at `k * width + j`. -/
theorem mono_duplication_law (src : List Byte) (width outChannels pos : Nat)
    (hwidth : width ∈ [2, 4, 8]) (_hout : outChannels ∈ [2, 4, 6, 8])
    (hpos : 2 * pos + 1 < outChannels) (hlen : width ∣ src.length)
    (hfit : src.length * (outChannels / 1) < 4294967296) :
    ∃ st, chain_remap src 1 width outChannels pos = Except.ok st ∧
      ∀ k j, k < src.length / width → j < width →
        k * width + j < src.length ∧
        st.pTgt[k * outChannels * width + 2 * pos * width + j]? = src[k * width + j]? ∧
        st.pTgt[k * outChannels * width + 2 * pos * width + width + j]? = src[k * width + j]? := by
  have hw : 0 < width := by
    simp only [List.mem_cons, List.mem_singleton, List.not_mem_nil, or_false] at hwidth
    omega
  obtain ⟨n, hn⟩ := hlen
  have hlen2 : src.length = n * (1 * width) := by rw [hn, Nat.one_mul, Nat.mul_comm]
  obtain ⟨st, hst, _, _, _, hbytes⟩ :=
    remap_window_byte src 1 width outChannels pos n (Or.inl rfl) hw (Nat.one_dvd _) hpos hlen2
      hfit
  refine ⟨st, hst, ?_⟩
  intro k j hk hj
  have hkn : k < n := by
    rw [hn, Nat.mul_div_cancel_left _ hw] at hk
    exact hk
  have hkl : (k + 1) * width ≤ n * width := Nat.mul_le_mul_right _ hkn
  have e1 : (k + 1) * width = k * width + width := by ring
  have e0 : n * (1 * width) = n * width := by ring
  have e2 : k * outChannels * width + 2 * pos * width + j
      = k * (outChannels * width) + (2 * pos * width + j) := by ring
  have e3 : k * outChannels * width + 2 * pos * width + width + j
      = k * (outChannels * width) + (2 * pos * width + (width + j)) := by ring
  have e4 : k * (1 * width) = k * width := by ring
  have hsl : k * width + width ≤ src.length := by omega
  refine ⟨by omega, ?_, ?_⟩
  · rw [e2, hbytes k j hkn (by omega), e4]
    exact windowBytes_mono_first src width _ j hj hsl
  · rw [e3, hbytes k (width + j) hkn (by omega), e4]
    exact windowBytes_mono_second src width _ j hj hsl

/-- Witness of the amended C2: one 16 bit mono sample sent to the front pair of
four channels. -/
theorem mono_duplication_law_witness :
    (2 ∈ [2, 4, 8] ∧ 4 ∈ [2, 4, 6, 8] ∧ 2 * 0 + 1 < 4 ∧ 2 ∣ [(21 : Byte), 22].length ∧
      [(21 : Byte), 22].length * (4 / 1) < 4294967296) ∧
    ∃ st, chain_remap [21, 22] 1 2 4 0 = Except.ok st ∧
      ∀ k j, k < [(21 : Byte), 22].length / 2 → j < 2 →
        k * 2 + j < [(21 : Byte), 22].length ∧
        st.pTgt[k * 4 * 2 + 2 * 0 * 2 + j]? = [(21 : Byte), 22][k * 2 + j]? ∧
        st.pTgt[k * 4 * 2 + 2 * 0 * 2 + 2 + j]? = [(21 : Byte), 22][k * 2 + j]? :=
  ⟨⟨by decide, by decide, by decide, by decide, by decide⟩,
    mono_duplication_law [21, 22] 2 4 0 (by decide) (by decide) (by decide) (by decide)
      (by decide)⟩

/-- C3, zero-fill law. In every output produced by the remapping of
`gst_rearrange_chain`, for any input, channel counts, width and selector,
every byte at an index `i` whose offset in its frame, `i % (outChannels * width)`,
lies outside the window from `2 * pos * width` up to `2 * pos * width + 2 * width`
is zero. (A produced output forces `outChannels * width > 0` unless it is empty.) -/
theorem zero_fill_law (src : List Byte) (inChannels width outChannels pos : Nat)
    (st : LoopState)
    (hst : chain_remap src inChannels width outChannels pos = Except.ok st) :
    ∀ i, i < st.pTgt.length →
      ¬ (2 * pos * width ≤ i % (outChannels * width) ∧
          i % (outChannels * width) < 2 * pos * width + 2 * width) →
      st.pTgt[i]? = some 0 := by
  intro i hi hout
  apply remap_outside_zero src inChannels width outChannels pos st hst i hi
  omega

/-- Witness of C3, scenario C: 32 bit stereo, eight output channels, selector 2;
the window is bytes 16..23 of the 32 byte frame and every other byte is zero. -/
theorem zero_fill_law_witness :
    chain_remap [1, 2, 3, 4, 5, 6, 7, 8] 2 4 8 2 =
      Except.ok { pSrc := some 8,
                  pTgt := [0, 0, 0, 0, 0, 0, 0, 0, 0, 0, 0, 0, 0, 0, 0, 0,
                           1, 2, 3, 4, 5, 6, 7, 8, 0, 0, 0, 0, 0, 0, 0, 0],
                  curByte := 0, pTmp := none, reads := [0, 1, 2, 3, 4, 5, 6, 7] } ∧
    ∀ i, i < 32 → ¬ (2 * 2 * 4 ≤ i % (8 * 4) ∧ i % (8 * 4) < 2 * 2 * 4 + 2 * 4) →
      ([0, 0, 0, 0, 0, 0, 0, 0, 0, 0, 0, 0, 0, 0, 0, 0,
        1, 2, 3, 4, 5, 6, 7, 8, 0, 0, 0, 0, 0, 0, 0, 0] : List Byte)[i]? = some 0 :=
  ⟨rfl, zero_fill_law [1, 2, 3, 4, 5, 6, 7, 8] 2 4 8 2 _ rfl⟩

/-- C4, counterexample. A stereo input of 2^31 bytes, 32 bit, with four output
channels is valid for the claim, which promises `len * 4 / 2 = 2^32` output
bytes; the code computes `buf->size * (4 / 2)` as a `guint` and allocates 0
bytes. -/
theorem size_law_wraps :
    (2 ∈ [1, 2] ∧ 4 ∈ [2, 4, 6, 8] ∧ 2 * 4 ∣ (silence 2147483648).length) ∧
    tgtBufSize (silence 2147483648).length 4 2 = Except.ok 0 ∧
    (silence 2147483648).length * 4 / 2 = 4294967296 := by
  refine ⟨⟨by decide, by decide, ?_⟩, ?_, ?_⟩
  · rw [silence_length]
    decide
  · rw [silence_length]
    rfl
  · rw [silence_length]

/-- C4, as amended: size law. For `inChannels` in {1, 2}, `outChannels` in
{2, 4, 6, 8} and an input whose length is a multiple of `inChannels * width`
and whose output size `len * (outChannels / inChannels)` is below 2^32, the
target buffer allocated by `gst_rearrange_chain` has
`len * outChannels / inChannels` bytes, every output the remapping produces
has that length, and that length is a whole number of output frames of
`outChannels * width` bytes, as many frames as the input has. -/
theorem size_law (src : List Byte) (inChannels width outChannels : Nat)
    (hin : inChannels ∈ [1, 2]) (hout : outChannels ∈ [2, 4, 6, 8])
    (hlen : inChannels * width ∣ src.length)
    (hfit : src.length * (outChannels / inChannels) < 4294967296) :
    tgtBufSize src.length outChannels inChannels
        = Except.ok (src.length * outChannels / inChannels) ∧
    (∀ pos st, chain_remap src inChannels width outChannels pos = Except.ok st →
        st.pTgt.length = src.length * outChannels / inChannels) ∧
    ∃ n, src.length = n * (inChannels * width) ∧
      src.length * outChannels / inChannels = n * (outChannels * width) := by
  have hdvd : inChannels ∣ outChannels := by
    simp only [List.mem_cons, List.mem_singleton, List.not_mem_nil, or_false] at hin hout
    rcases hin with h | h
    · subst h
      exact Nat.one_dvd _
    · subst h
      omega
  have hicpos : 0 < inChannels := by
    simp only [List.mem_cons, List.mem_singleton, List.not_mem_nil, or_false] at hin
    omega
  have hassoc : src.length * outChannels / inChannels = src.length * (outChannels / inChannels) :=
    Nat.mul_div_assoc _ hdvd
  refine ⟨?_, ?_, ?_⟩
  · simp only [tgtBufSize, show inChannels ≠ 0 by omega, if_false, hassoc,
      Nat.mod_eq_of_lt hfit]
  · intro pos st hst
    rw [hassoc, (remap_length src inChannels width outChannels pos st hst).2,
      Nat.mod_eq_of_lt hfit]
  · obtain ⟨n, hn⟩ := hlen
    obtain ⟨r, hr⟩ := hdvd
    refine ⟨n, by rw [hn, Nat.mul_comm], ?_⟩
    rw [hassoc, hn, hr, Nat.mul_div_cancel_left r hicpos]
    ring

/-- Witness of the amended C4: two 16 bit stereo frames spread over six channels. -/
theorem size_law_witness :
    (2 ∈ [1, 2] ∧ 6 ∈ [2, 4, 6, 8] ∧ 2 * 2 ∣ [(1 : Byte), 2, 3, 4, 5, 6, 7, 8].length ∧
      [(1 : Byte), 2, 3, 4, 5, 6, 7, 8].length * (6 / 2) < 4294967296) ∧
    (tgtBufSize [(1 : Byte), 2, 3, 4, 5, 6, 7, 8].length 6 2
        = Except.ok ([(1 : Byte), 2, 3, 4, 5, 6, 7, 8].length * 6 / 2) ∧
    (∀ pos st, chain_remap [1, 2, 3, 4, 5, 6, 7, 8] 2 2 6 pos = Except.ok st →
        st.pTgt.length = [(1 : Byte), 2, 3, 4, 5, 6, 7, 8].length * 6 / 2) ∧
    ∃ n, [(1 : Byte), 2, 3, 4, 5, 6, 7, 8].length = n * (2 * 2) ∧
      [(1 : Byte), 2, 3, 4, 5, 6, 7, 8].length * 6 / 2 = n * (6 * 2)) :=
  ⟨⟨by decide, by decide, by decide, by decide⟩,
    size_law [1, 2, 3, 4, 5, 6, 7, 8] 2 2 6 (by decide) (by decide) (by decide) (by decide)⟩

/-- C8, degenerate passthrough. For a stereo input buffer (its size is a
`guint`, hence below 2^32) whose length is a multiple of `2 * width` (any
number of frames), with two output channels and selector 0, the remapping of
`gst_rearrange_chain` completes and its output is the input, byte for byte
and of the same length; no byte is zero-filled, every written byte is a copy:
the offsets read are 0, 1, ..., `len - 1` in this order. -/
theorem passthrough_identity (src : List Byte) (width : Nat)
    (hsize : src.length < 4294967296) (hlen : 2 * width ∣ src.length) :
    ∃ st, chain_remap src 2 width 2 0 = Except.ok st ∧
      st.pTgt = src ∧ st.pTgt.length = src.length ∧ st.reads = List.range src.length := by
  obtain ⟨n, hn⟩ := hlen
  rcases Nat.eq_zero_or_pos width with hw | hw
  · subst hw
    have hnil : src = [] := by
      apply List.eq_nil_of_length_eq_zero
      simpa using hn
    subst hnil
    exact ⟨_, rfl, rfl, rfl, rfl⟩
  · have hlen2 : src.length = n * (2 * width) := by rw [hn, Nat.mul_comm]
    have hfit : src.length * (2 / 2) < 4294967296 := by
      rw [Nat.div_self (by decide), Nat.mul_one]
      exact hsize
    obtain ⟨st, hst, _, _, ht, hr⟩ :=
      remap_valid src 2 width 2 0 n (Or.inr rfl) hw (Nat.dvd_refl 2) (by omega) hlen2 hfit
    have hout : st.pTgt = src := by
      rw [ht, framesOut_passthrough, ← hlen2]
      simp
    refine ⟨st, hst, hout, by rw [hout], ?_⟩
    rw [hr, framesReads_stereo, ← hlen2, List.range_eq_range']

/-- Witness of C8: a two-frame 16 bit stereo input. -/
theorem passthrough_identity_witness :
    ([(1 : Byte), 2, 3, 4, 5, 6, 7, 8].length < 4294967296 ∧
      2 * 2 ∣ [(1 : Byte), 2, 3, 4, 5, 6, 7, 8].length) ∧
    ∃ st, chain_remap [1, 2, 3, 4, 5, 6, 7, 8] 2 2 2 0 = Except.ok st ∧
      st.pTgt = [1, 2, 3, 4, 5, 6, 7, 8] ∧
      st.pTgt.length = [(1 : Byte), 2, 3, 4, 5, 6, 7, 8].length ∧
      st.reads = List.range [(1 : Byte), 2, 3, 4, 5, 6, 7, 8].length :=
  ⟨⟨by decide, by decide⟩,
    passthrough_identity [1, 2, 3, 4, 5, 6, 7, 8] 2 (by decide) (by decide)⟩

/-- C10, outputs for distinct placements have disjoint support. For any two
inputs `a` and `b` remapped with the same width and output channel count and
with selectors `p ≠ q`, at every byte index present in both outputs at least
one of the two output bytes is zero. Hence their byte-wise sum is the byte of
the output of `a` inside the window of `p`, the byte of the output of `b`
inside the window of `q`, and zero outside both windows. -/
theorem disjoint_support (a b : List Byte) (inA inB width outChannels p q : Nat)
    (hpq : p ≠ q) (sa sb : LoopState)
    (ha : chain_remap a inA width outChannels p = Except.ok sa)
    (hb : chain_remap b inB width outChannels q = Except.ok sb) :
    ∀ i, i < sa.pTgt.length → i < sb.pTgt.length →
      ∃ x y, sa.pTgt[i]? = some x ∧ sb.pTgt[i]? = some y ∧
        (x = 0 ∨ y = 0) ∧
        ((2 * p * width ≤ i % (outChannels * width) ∧
            i % (outChannels * width) < 2 * p * width + 2 * width) → x + y = x) ∧
        ((2 * q * width ≤ i % (outChannels * width) ∧
            i % (outChannels * width) < 2 * q * width + 2 * width) → x + y = y) ∧
        (¬ (2 * p * width ≤ i % (outChannels * width) ∧
            i % (outChannels * width) < 2 * p * width + 2 * width) →
          ¬ (2 * q * width ≤ i % (outChannels * width) ∧
            i % (outChannels * width) < 2 * q * width + 2 * width) → x + y = 0) := by
  intro i hia hib
  have hza := remap_outside_zero a inA width outChannels p sa ha i hia
  have hzb := remap_outside_zero b inB width outChannels q sb hb i hib
  have hxa : sa.pTgt[i]? = some sa.pTgt[i] := List.getElem?_eq_getElem hia
  have hxb : sb.pTgt[i]? = some sb.pTgt[i] := List.getElem?_eq_getElem hib
  rw [hxa] at hza
  rw [hxb] at hzb
  simp only [Option.some.injEq] at hza hzb
  have hdisj : ¬ ((2 * p * width ≤ i % (outChannels * width) ∧
        i % (outChannels * width) < 2 * p * width + width * 2) ∧
      (2 * q * width ≤ i % (outChannels * width) ∧
        i % (outChannels * width) < 2 * q * width + width * 2)) := by
    intro hboth
    rcases Nat.lt_or_gt_of_ne hpq with h | h
    · have h1 : (2 * p + 2) * width ≤ 2 * q * width := Nat.mul_le_mul_right width (by omega)
      have h2 : (2 * p + 2) * width = 2 * p * width + width * 2 := by ring
      omega
    · have h1 : (2 * q + 2) * width ≤ 2 * p * width := Nat.mul_le_mul_right width (by omega)
      have h2 : (2 * q + 2) * width = 2 * q * width + width * 2 := by ring
      omega
  have e2 : 2 * width = width * 2 := Nat.mul_comm 2 width
  rw [e2]
  refine ⟨sa.pTgt[i], sb.pTgt[i], hxa, hxb, ?_, ?_, ?_, ?_⟩
  · by_cases hp : 2 * p * width ≤ i % (outChannels * width) ∧
        i % (outChannels * width) < 2 * p * width + width * 2
    · right
      exact hzb (fun hq => hdisj ⟨hp, hq⟩)
    · left
      exact hza hp
  · intro hp
    rw [hzb (fun hq => hdisj ⟨hp, hq⟩)]
    simp
  · intro hq
    rw [hza (fun hp => hdisj ⟨hp, hq⟩)]
    simp
  · intro hp hq
    rw [hza hp, hzb hq]
    simp

/-- Witness of C10: the example of the element documentation, one stereo
signal on the front pair and one on the rear pair of four channels. -/
theorem disjoint_support_witness :
    ((0 : Nat) ≠ 1 ∧
      chain_remap [1, 2, 3, 4] 2 2 4 0 =
        Except.ok { pSrc := some 4, pTgt := [1, 2, 3, 4, 0, 0, 0, 0], curByte := 0,
                    pTmp := none, reads := [0, 1, 2, 3] } ∧
      chain_remap [5, 6, 7, 8] 2 2 4 1 =
        Except.ok { pSrc := some 4, pTgt := [0, 0, 0, 0, 5, 6, 7, 8], curByte := 0,
                    pTmp := none, reads := [0, 1, 2, 3] }) ∧
    ∀ i, i < 8 → i < 8 →
      ∃ x y, ([1, 2, 3, 4, 0, 0, 0, 0] : List Byte)[i]? = some x ∧
        ([0, 0, 0, 0, 5, 6, 7, 8] : List Byte)[i]? = some y ∧
        (x = 0 ∨ y = 0) ∧
        ((2 * 0 * 2 ≤ i % (4 * 2) ∧ i % (4 * 2) < 2 * 0 * 2 + 2 * 2) → x + y = x) ∧
        ((2 * 1 * 2 ≤ i % (4 * 2) ∧ i % (4 * 2) < 2 * 1 * 2 + 2 * 2) → x + y = y) ∧
        (¬ (2 * 0 * 2 ≤ i % (4 * 2) ∧ i % (4 * 2) < 2 * 0 * 2 + 2 * 2) →
          ¬ (2 * 1 * 2 ≤ i % (4 * 2) ∧ i % (4 * 2) < 2 * 1 * 2 + 2 * 2) → x + y = 0) :=
  ⟨⟨by decide, rfl, rfl⟩,
    disjoint_support [1, 2, 3, 4] [5, 6, 7, 8] 2 2 2 4 0 1 (by decide) _ _ rfl rfl⟩

/-- C5, counterexample. With `pos = 3` and `outChannels = 2` (so that
`2 * pos + 1 = 7 ≥ 2`) a 16 bit stereo frame is not rejected: the call
allocates the four byte output, fills it with zeros, attaches the output caps
and returns the value of `gst_pad_push` on it. -/
theorem boundary_not_rejected :
    gst_rearrange_chain pushOk { outChannels := 2, outPos := 3 }
        { data := [1, 2, 3, 4], caps := capsInt16 2 } =
      Except.ok
        { pushed :=
            { data := [0, 0, 0, 0],
              caps := [ { name := "audio/x-raw-int",
                          fields := [("width", GValue.int 16), ("depth", GValue.int 16),
                                     ("endianness", GValue.int 1234),
                                     ("channels", GValue.int 2), ("rate", GValue.int 44100),
                                     ("channel-positions", GValue.positions
                                        [GstAudioChannelPosition.FRONT_LEFT,
                                         GstAudioChannelPosition.FRONT_RIGHT])] } ] },
          ret := GstFlowReturn.GST_FLOW_OK } := by
  rfl

/-- C5, as amended. A call whose selector is out of domain for the channel
count (`outChannels` in {2, 4, 6, 8} and `2 * pos + 1 ≥ outChannels`) is not
rejected by `gst_rearrange_chain`: for an input format with `inChannels` in
{1, 2} and a width of at least 8 bits, and an output size
`len * (outChannels / inChannels)` below 2^32, the call allocates the output
buffer of that many bytes, writes zero to every byte of it, attaches the
output caps and returns what `gst_pad_push` returns for it. -/
theorem out_of_domain_pushes_silence (push : GstBuffer → GstFlowReturn)
    (filter : GstReArrange) (buf : GstBuffer) (bits inChannels : Nat)
    (hout : filter.outChannels ∈ [2, 4, 6, 8])
    (hdom : 2 * filter.outPos + 1 ≥ filter.outChannels)
    (hbits : 8 ≤ bits) (hin : inChannels ∈ [1, 2])
    (hw : gst_rearrange_get_caps_int buf.caps "width" = (bits : Int))
    (hc : gst_rearrange_get_caps_int buf.caps "channels" = (inChannels : Int))
    (hfit : buf.data.length * (filter.outChannels / inChannels) < 4294967296) :
    gst_rearrange_chain push filter buf =
      Except.ok
        { pushed :=
            { data := List.replicate (buf.data.length * (filter.outChannels / inChannels)) 0,
              caps := gst_rearrange_set_buffer_caps buf.caps filter.outChannels },
          ret := push
            { data := List.replicate (buf.data.length * (filter.outChannels / inChannels)) 0,
              caps := gst_rearrange_set_buffer_caps buf.caps filter.outChannels } } := by
  have hic : inChannels ≠ 0 := by
    simp only [List.mem_cons, List.mem_singleton, List.not_mem_nil, or_false] at hin
    omega
  have hwpos : 0 < bits / 8 := Nat.div_pos hbits (by decide)
  have hoc : 0 < filter.outChannels ∧ filter.outChannels ≤ 2 * filter.outPos := by
    simp only [List.mem_cons, List.mem_singleton, List.not_mem_nil, or_false] at hout
    omega
  obtain ⟨st, hst, ht, _⟩ := remap_window_outside buf.data inChannels (bits / 8)
    filter.outChannels filter.outPos hic hwpos hoc.1 hoc.2
  rw [Nat.mod_eq_of_lt hfit] at ht
  rw [chain_of_caps push filter buf bits inChannels hw hc, hst]
  simp only [ht]

/-- Witness of the amended C5: selector 3 with two output channels. -/
theorem out_of_domain_pushes_silence_witness :
    ((2 : Nat) ∈ [2, 4, 6, 8] ∧ 2 * 3 + 1 ≥ 2 ∧ 8 ≤ 16 ∧ 2 ∈ [1, 2] ∧
      gst_rearrange_get_caps_int (capsInt16 2) "width" = ((16 : Nat) : Int) ∧
      gst_rearrange_get_caps_int (capsInt16 2) "channels" = ((2 : Nat) : Int) ∧
      [(1 : Byte), 2, 3, 4].length * (2 / 2) < 4294967296) ∧
    gst_rearrange_chain pushOk { outChannels := 2, outPos := 3 }
        { data := [1, 2, 3, 4], caps := capsInt16 2 } =
      Except.ok
        { pushed :=
            { data := List.replicate ([(1 : Byte), 2, 3, 4].length * (2 / 2)) 0,
              caps := gst_rearrange_set_buffer_caps (capsInt16 2) ((2 : Nat) : Int) },
          ret := pushOk
            { data := List.replicate ([(1 : Byte), 2, 3, 4].length * (2 / 2)) 0,
              caps := gst_rearrange_set_buffer_caps (capsInt16 2) ((2 : Nat) : Int) } } :=
  ⟨⟨by decide, by decide, by decide, by decide, rfl, rfl, by decide⟩,
    out_of_domain_pushes_silence pushOk { outChannels := 2, outPos := 3 }
      { data := [1, 2, 3, 4], caps := capsInt16 2 } 16 2
      (by decide) (by decide) (by decide) (by decide) rfl rfl (by decide)⟩

/-- Attributes below zero are not tested for by `gst_rearrange_chain`, which
runs on to push a buffer. A width of -16 bits gives `width = -2`: `toByte` lies
below `fromByte`, no byte is copied and the eight byte output is all zero. A
channel count of -1 is 2^32 - 1 as a `guint`, `outChannels / inChannels` is 0
and the pushed buffer is empty. -/
theorem negative_attributes_push :
    (gst_rearrange_chain pushOk { outChannels := 4, outPos := 1 }
        { data := [1, 2, 3, 4],
          caps := [ { name := "audio/x-raw-int",
                      fields := [("width", GValue.int (-16)),
                                 ("channels", GValue.int 2)] } ] }).map
        (fun out => out.pushed.data) = Except.ok [0, 0, 0, 0, 0, 0, 0, 0] ∧
    (gst_rearrange_chain pushOk { outChannels := 4, outPos := 1 }
        { data := [1, 2, 3, 4],
          caps := [ { name := "audio/x-raw-int",
                      fields := [("width", GValue.int 16),
                                 ("channels", GValue.int (-1))] } ] }).map
        (fun out => out.pushed.data) = Except.ok [] :=
  ⟨rfl, rfl⟩

/-- A failed lookup of `gst_rearrange_get_caps_int` is not signalled: the
function returns 0, the value it also returns for an attribute that is present
and zero. -/
theorem get_caps_int_absent (sinkCaps : GstCaps) (field : String)
    (h : gst_structure_get_int (gst_caps_get_structure0 sinkCaps) field = none) :
    gst_rearrange_get_caps_int sinkCaps field = 0 := by
  simp [gst_rearrange_get_caps_int, h]

/-- C6, the code at the failing inputs. On caps without `channels` the lookup
fails, `gst_rearrange_get_caps_int` returns 0 all the same (as for an attribute
present with value 0), and `gst_rearrange_chain` goes on to divide
`outChannels` by that 0. On caps without `width` the lookup returns 0 too and
the chain reaches the modulo by `outChannels * 0`. -/
theorem format_read_fault_unsignalled :
    gst_structure_get_int (gst_caps_get_structure0 capsNoChannels) "channels" = none ∧
    gst_rearrange_get_caps_int capsNoChannels "channels" = 0 ∧
    gst_rearrange_get_caps_int (capsInt16 0) "channels" = 0 ∧
    tgtBufSize 4 4 0 = Except.error Fault.divByZero ∧
    gst_rearrange_chain pushOk { outChannels := 4, outPos := 1 }
        { data := [1, 2, 3, 4], caps := capsNoChannels } = Except.error Fault.divByZero ∧
    gst_structure_get_int (gst_caps_get_structure0 capsNoWidth) "width" = none ∧
    gst_rearrange_get_caps_int capsNoWidth "width" = 0 ∧
    gst_rearrange_chain pushOk { outChannels := 4, outPos := 1 }
        { data := [1, 2, 3, 4], caps := capsNoWidth } = Except.error Fault.divByZero :=
  ⟨rfl, rfl, rfl, rfl, rfl, rfl, rfl, rfl⟩

/-- C7, format-passthrough law. For every input format (first structure `struc`
of the input caps) and every `outChannels` in {2, 4, 6, 8}, the caps built by
`gst_rearrange_set_buffer_caps` hold one structure with the same name (the
encoding) and the same `width` and `rate` as the input, indeed the same value
for every field other than `channels` and `channel-positions`; its `channels`
field is `outChannels`; and its `channel-positions` field is the first
`outChannels` entries of the fixed order front-left, front-right, rear-left,
rear-right, front-center, LFE, side-left, side-right, a list of length
`outChannels`. -/
theorem format_passthrough_law (struc : GstStructure) (rest : GstCaps) (outChannels : Nat)
    (hout : outChannels ∈ [2, 4, 6, 8]) :
    ∃ out, gst_rearrange_set_buffer_caps (struc :: rest) (outChannels : Int) = [out] ∧
      out.name = struc.name ∧
      gst_structure_get out "width" = gst_structure_get struc "width" ∧
      gst_structure_get out "rate" = gst_structure_get struc "rate" ∧
      (∀ field, field ≠ "channels" → field ≠ "channel-positions" →
        gst_structure_get out field = gst_structure_get struc field) ∧
      gst_structure_get out "channels" = some (GValue.int outChannels) ∧
      gst_structure_get out "channel-positions" =
        some (GValue.positions
          (List.take outChannels
            [GstAudioChannelPosition.FRONT_LEFT, GstAudioChannelPosition.FRONT_RIGHT,
             GstAudioChannelPosition.REAR_LEFT, GstAudioChannelPosition.REAR_RIGHT,
             GstAudioChannelPosition.FRONT_CENTER, GstAudioChannelPosition.LFE,
             GstAudioChannelPosition.SIDE_LEFT, GstAudioChannelPosition.SIDE_RIGHT])) ∧
      (List.take outChannels _gst_rearrange_positions).length = outChannels := by
  have hpos : (0 : Int) < (outChannels : Int) := by
    simp only [List.mem_cons, List.mem_singleton, List.not_mem_nil, or_false] at hout
    omega
  have hch : gst_structure_get_int
      (some (gst_structure_set struc "channels" (GValue.int outChannels))) "channels"
      = some (outChannels : Int) :=
    get_int_of_get _ _ _ (get_set_same struc "channels" (GValue.int outChannels))
  have hother : ∀ field, field ≠ "channels" → field ≠ "channel-positions" →
      gst_structure_get
        (gst_structure_set (gst_structure_set struc "channels" (GValue.int outChannels))
          "channel-positions"
          (GValue.positions (List.take outChannels _gst_rearrange_positions))) field
        = gst_structure_get struc field := by
    intro field h1 h2
    rw [get_set_other _ _ _ _ h2, get_set_other _ _ _ _ h1]
  refine ⟨gst_structure_set (gst_structure_set struc "channels" (GValue.int outChannels))
    "channel-positions" (GValue.positions (List.take outChannels _gst_rearrange_positions)),
    ?_, rfl, hother _ (by decide) (by decide), hother _ (by decide) (by decide), hother, ?_, ?_, ?_⟩
  · simp only [gst_rearrange_set_buffer_caps, gst_caps_get_structure0, List.head?_cons,
      gst_audio_set_channel_positions, hch, hpos, if_true, Int.toNat_ofNat]
  · rw [get_set_other _ _ _ _ (by decide)]
    exact get_set_same struc "channels" (GValue.int outChannels)
  · exact get_set_same _ _ _
  · simp only [List.mem_cons, List.mem_singleton, List.not_mem_nil, or_false] at hout
    rcases hout with h | h | h | h <;> subst h <;> rfl

/-- Witness of C7: 16 bit stereo caps widened to six channels. -/
theorem format_passthrough_law_witness :
    (6 : Nat) ∈ [2, 4, 6, 8] ∧
    ∃ out, gst_rearrange_set_buffer_caps
        ({ name := "audio/x-raw-int",
           fields := [("width", GValue.int 16), ("channels", GValue.int 2),
                      ("rate", GValue.int 44100)] } :: []) ((6 : Nat) : Int) = [out] ∧
      out.name = "audio/x-raw-int" ∧
      gst_structure_get out "width" = gst_structure_get
        { name := "audio/x-raw-int",
          fields := [("width", GValue.int 16), ("channels", GValue.int 2),
                     ("rate", GValue.int 44100)] } "width" ∧
      gst_structure_get out "rate" = gst_structure_get
        { name := "audio/x-raw-int",
          fields := [("width", GValue.int 16), ("channels", GValue.int 2),
                     ("rate", GValue.int 44100)] } "rate" ∧
      (∀ field, field ≠ "channels" → field ≠ "channel-positions" →
        gst_structure_get out field = gst_structure_get
          { name := "audio/x-raw-int",
            fields := [("width", GValue.int 16), ("channels", GValue.int 2),
                       ("rate", GValue.int 44100)] } field) ∧
      gst_structure_get out "channels" = some (GValue.int ((6 : Nat) : Int)) ∧
      gst_structure_get out "channel-positions" =
        some (GValue.positions
          (List.take 6
            [GstAudioChannelPosition.FRONT_LEFT, GstAudioChannelPosition.FRONT_RIGHT,
             GstAudioChannelPosition.REAR_LEFT, GstAudioChannelPosition.REAR_RIGHT,
             GstAudioChannelPosition.FRONT_CENTER, GstAudioChannelPosition.LFE,
             GstAudioChannelPosition.SIDE_LEFT, GstAudioChannelPosition.SIDE_RIGHT])) ∧
      (List.take 6 _gst_rearrange_positions).length = 6 :=
  ⟨by decide, format_passthrough_law _ [] 6 (by decide)⟩

end GstRearrange
